import Mathlib

/-!
# Verification of the zonal-fim barycentric interpolation core

Shallow embedding of the computational core of the `owp-spatial/zonal-fim`
repository:

* `src/cfimvis/tools/barrycentric.py` — slope estimation and slope-weighted
  barycentric weights for 3D triangles (`calculate_slope`,
  `calculate_barycentric_weights`, `compute_3d_barycentric`);
* `src/cfimvis/code/bary_interpolation.py` — coverage-fraction aggregation of
  per-element WSE values onto raster cells, depth filtering, backfilling and
  rasterization (`interpolate`, `make_depth_raster`).

The geometric part operates on floating-point numbers in the source; it is
embedded over the exact reals `ℝ` (each numpy float operation is modelled by
the corresponding real operation, decimal literals read as exact rationals,
`np.linalg.norm` as `Real.sqrt` of the sum of squares).  Real division by
zero, which produces `NaN`/`Inf` under IEEE semantics, is tracked by explicit
side predicates (`bary_emits_nan`) and by `Option`-valued checked variants
(`calculate_slope_checked`) rather than by Lean's `x / 0 = 0` convention.

The tabular part of `bary_interpolation.py` involves only field arithmetic
and is embedded computably over `ℚ`; SQL `NULL` / numpy `NaN` values are
modelled by `Option`.

The file is organised as definitions first (part 1), then theorems (part 2).
-/

namespace ZonalFim

/-! ## Part 1: definitions -/

/-- A 3D point `[x, y, z]`, as the numpy arrays of `barrycentric.py`
(`x = long`, `y = lat`, `z = elevation`). -/
structure Pt3 where
  x : ℝ
  y : ℝ
  z : ℝ

/-- Componentwise difference, as numpy vector subtraction. -/
def Pt3.sub (a b : Pt3) : Pt3 := ⟨a.x - b.x, a.y - b.y, a.z - b.z⟩

/-- Componentwise sum, as numpy vector addition. -/
def Pt3.add (a b : Pt3) : Pt3 := ⟨a.x + b.x, a.y + b.y, a.z + b.z⟩

/-- Scalar multiple, as numpy scalar-array multiplication. -/
def Pt3.smul (r : ℝ) (a : Pt3) : Pt3 := ⟨r * a.x, r * a.y, r * a.z⟩

/-- The 3D cross product, as `np.cross`. -/
def Pt3.cross (a b : Pt3) : Pt3 :=
  ⟨a.y * b.z - a.z * b.y, a.z * b.x - a.x * b.z, a.x * b.y - a.y * b.x⟩

/-- Euclidean norm of the full vector, as `np.linalg.norm(v)`. -/
noncomputable def Pt3.norm3 (a : Pt3) : ℝ := Real.sqrt (a.x ^ 2 + a.y ^ 2 + a.z ^ 2)

/-- Euclidean norm of the horizontal `[x, y]` part, as `np.linalg.norm(v[:2])`. -/
noncomputable def Pt3.norm2xy (a : Pt3) : ℝ := Real.sqrt (a.x ^ 2 + a.y ^ 2)

instance : Add Pt3 := ⟨Pt3.add⟩
instance : Sub Pt3 := ⟨Pt3.sub⟩
instance : SMul ℝ Pt3 := ⟨Pt3.smul⟩

/-- One summand of `calculate_slope`: the guarded slope magnitude
`abs(dz / distance) if distance != 0 else 0` from `barrycentric.py`. -/
noncomputable def slope_term (dz d : ℝ) : ℝ := if d ≠ 0 then |dz / d| else 0

/-- `calculate_slope(vertex, other_vertex1, other_vertex2)` from
`barrycentric.py` lines 44-62: mean of the two guarded slope magnitudes of the
vectors from `vertex` to the two neighbours. -/
noncomputable def calculate_slope (vertex a b : Pt3) : ℝ :=
  (slope_term (a - vertex).z (Pt3.norm2xy (a - vertex)) +
    slope_term (b - vertex).z (Pt3.norm2xy (b - vertex))) / 2

/-- Checked division: `some (x / y)` unless `y = 0`, in which case the float
code would produce `NaN` or `Inf`, modelled as `none`. -/
noncomputable def fdiv? (x y : ℝ) : Option ℝ :=
  if y = 0 then none else some (x / y)

/-- Checked variant of `slope_term`: the source divides only under its own
`distance != 0` guard, so the division is fed through `fdiv?`. -/
noncomputable def slope_term_checked (dz d : ℝ) : Option ℝ :=
  if d ≠ 0 then (fdiv? dz d).map (fun t => |t|) else some 0

/-- Checked variant of `calculate_slope`: `none` exactly when some float
division in the source would be a division by zero. -/
noncomputable def calculate_slope_checked (vertex a b : Pt3) : Option ℝ :=
  match slope_term_checked (a - vertex).z (Pt3.norm2xy (a - vertex)),
      slope_term_checked (b - vertex).z (Pt3.norm2xy (b - vertex)) with
  | some s1, some s2 => some ((s1 + s2) / 2)
  | _, _ => none

/-- Specification-side slope contribution, written from the spec's words
(§4.1): "slope magnitude = |Δz / horizontal distance|; if horizontal distance
is exactly zero, that neighbor's slope contributes 0". -/
noncomputable def slope_spec (vertex n : Pt3) : ℝ :=
  if Pt3.norm2xy (n - vertex) = 0 then 0 else |(n.z - vertex.z) / Pt3.norm2xy (n - vertex)|

/-! ### `calculate_barycentric_weights` (`barrycentric.py` lines 64-135)

Each local variable of the source function becomes a named definition taking
the three triangle vertices `A B C` as arguments, in source order. -/

/-- `slope_A = calculate_slope(A_point, B_point, C_point)`. -/
noncomputable def slope_A (A B C : Pt3) : ℝ := calculate_slope A B C

/-- `slope_B = calculate_slope(B_point, A_point, C_point)`. -/
noncomputable def slope_B (A B C : Pt3) : ℝ := calculate_slope B A C

/-- `slope_C = calculate_slope(C_point, A_point, B_point)`. -/
noncomputable def slope_C (A B C : Pt3) : ℝ := calculate_slope C A B

/-- `total_slope = slope_A + slope_B + slope_C`. -/
noncomputable def total_slope (A B C : Pt3) : ℝ :=
  slope_A A B C + slope_B A B C + slope_C A B C

/-- The hard-coded flat-region weight `0.33333333333` of `barrycentric.py`
line 101 (eleven threes — not the real number `1/3`). -/
noncomputable def flatW : ℝ := 0.33333333333

/-- `w_A`: flat-region constant when `total_slope == 0`, otherwise the
normalized slope `slope_A / total_slope`. -/
noncomputable def w_A (A B C : Pt3) : ℝ :=
  if total_slope A B C = 0 then flatW else slope_A A B C / total_slope A B C

/-- `w_B`, as `w_A`. -/
noncomputable def w_B (A B C : Pt3) : ℝ :=
  if total_slope A B C = 0 then flatW else slope_B A B C / total_slope A B C

/-- `w_C`, as `w_A`. -/
noncomputable def w_C (A B C : Pt3) : ℝ :=
  if total_slope A B C = 0 then flatW else slope_C A B C / total_slope A B C

/-- `centroid = w_A * A_point + w_B * B_point + w_C * C_point`. -/
noncomputable def centroid (A B C : Pt3) : Pt3 :=
  w_A A B C • A + w_B A B C • B + w_C A B C • C

/-- `vec_A = centroid - A_point`. -/
noncomputable def vec_A (A B C : Pt3) : Pt3 := centroid A B C - A

/-- `vec_B = centroid - B_point`. -/
noncomputable def vec_B (A B C : Pt3) : Pt3 := centroid A B C - B

/-- `vec_C = centroid - C_point`. -/
noncomputable def vec_C (A B C : Pt3) : Pt3 := centroid A B C - C

/-- `normal = np.cross(B_point - A_point, C_point - A_point)`. -/
def normal (A B C : Pt3) : Pt3 := Pt3.cross (B - A) (C - A)

/-- `normal_length = np.linalg.norm(normal)`. -/
noncomputable def normal_length (A B C : Pt3) : ℝ := Pt3.norm3 (normal A B C)

/-- `area_A = np.linalg.norm(np.cross(vec_B, vec_C)) / normal_length`. -/
noncomputable def area_A (A B C : Pt3) : ℝ :=
  Pt3.norm3 (Pt3.cross (vec_B A B C) (vec_C A B C)) / normal_length A B C

/-- `area_B = np.linalg.norm(np.cross(vec_C, vec_A)) / normal_length`. -/
noncomputable def area_B (A B C : Pt3) : ℝ :=
  Pt3.norm3 (Pt3.cross (vec_C A B C) (vec_A A B C)) / normal_length A B C

/-- `area_C = np.linalg.norm(np.cross(vec_A, vec_B)) / normal_length`. -/
noncomputable def area_C (A B C : Pt3) : ℝ :=
  Pt3.norm3 (Pt3.cross (vec_A A B C) (vec_B A B C)) / normal_length A B C

/-- `total_area = area_A + area_B + area_C`. -/
noncomputable def total_area (A B C : Pt3) : ℝ :=
  area_A A B C + area_B A B C + area_C A B C

/-- `weight_A = area_A / total_area`. -/
noncomputable def weight_A (A B C : Pt3) : ℝ := area_A A B C / total_area A B C

/-- `weight_B = area_B / total_area`. -/
noncomputable def weight_B (A B C : Pt3) : ℝ := area_B A B C / total_area A B C

/-- `weight_C = area_C / total_area`. -/
noncomputable def weight_C (A B C : Pt3) : ℝ := area_C A B C / total_area A B C

/-- `calculate_barycentric_weights(triangle_points)`: the returned array
`[weight_A, weight_B, weight_C]`. -/
noncomputable def calculate_barycentric_weights (A B C : Pt3) : ℝ × ℝ × ℝ :=
  (weight_A A B C, weight_B A B C, weight_C A B C)

/-- The two divisions of `calculate_barycentric_weights` that the source
performs without any guard (by `normal_length` and by `total_area`): under
IEEE float semantics a zero denominator there produces `NaN`/`Inf`, and the
final normalization then yields `NaN`.  (The slope divisions are guarded by
the source's own `if`s and cannot fire.) -/
noncomputable def bary_emits_nan (A B C : Pt3) : Prop :=
  normal_length A B C = 0 ∨ total_area A B C = 0

/-! ### `compute_3d_barycentric` (`barrycentric.py` lines 137-263)

The loop over the element table, with the node-coordinate lookup
`node_coords_dict` abstracted as a partial map. -/

/-- An element row: `pg_id` and the three node references. -/
structure MeshElem where
  pg_id : Nat
  node_id_1 : Nat
  node_id_2 : Nat
  node_id_3 : Nat
deriving DecidableEq, Repr

/-- A node record with the dict value order `['long', 'lat', 'elevation']`
used to build the triangle point `[x, y, z]`. -/
structure NodeRec where
  long : ℝ
  lat : ℝ
  elevation : ℝ

/-- The numpy row built from a node record. -/
def node_pt (n : NodeRec) : Pt3 := ⟨n.long, n.lat, n.elevation⟩

/-- One iteration of the loop (`barrycentric.py` lines 186-206): fetch the
three node coordinates; if all resolve, compute the barycentric weights,
otherwise record `None` for each weight (and print the element identity). -/
noncomputable def element_weights (lookup : Nat → Option NodeRec) (e : MeshElem) :
    Option (ℝ × ℝ × ℝ) :=
  match lookup e.node_id_1, lookup e.node_id_2, lookup e.node_id_3 with
  | some a, some b, some c =>
      some (calculate_barycentric_weights (node_pt a) (node_pt b) (node_pt c))
  | _, _, _ => none

/-- The whole batch: one weight entry per element, in table order (the
source's `continue` never drops an output slot — it appends `None`s). -/
noncomputable def compute_3d_barycentric (lookup : Nat → Option NodeRec)
    (elems : List MeshElem) : List (Option (ℝ × ℝ × ℝ)) :=
  elems.map (element_weights lookup)

/-- The element identities reported by the "problem fetching triangle
points" branch of the loop. -/
noncomputable def problem_elements (lookup : Nat → Option NodeRec)
    (elems : List MeshElem) : List Nat :=
  (elems.filter (fun e => (element_weights lookup e).isNone)).map (fun e => e.pg_id)

/-! ### `interpolate` (`bary_interpolation.py` lines 10-156)

The `coverage_fraction` table joined against the per-element WSE table,
aggregated per raster cell.  All arithmetic here is plain field arithmetic,
embedded over `ℚ`; SQL `NULL` / numpy `NaN` is `Option.none`. -/

/-- A row of the `coverage_fraction` table (`interpolate` line 59): `pg_id`,
`cell`, `coverage_fraction`, and the sampled `elevation` (with `none` for
`NaN`). -/
structure CovRow where
  pg_id : Nat
  cell : Nat
  coverage_fraction : ℚ
  elevation : Option ℚ
deriving DecidableEq, Repr

/-- The coverage rows of one raster cell (the `group_by("cell")` group). -/
def cellRows (tbl : List CovRow) (c : Nat) : List CovRow :=
  tbl.filter (fun r => r.cell == c)

/-- One summand of the per-cell numerator: `wse_weighted_average *
coverage_fraction` after the left join with `triangle_barycentric` on
`pg_id`; a row whose `pg_id` is unmatched carries SQL `NULL`, which `SUM`
skips, modelled as contributing `0`. -/
def rowTerm (wse_of : Nat → Option ℚ) (r : CovRow) : ℚ :=
  match wse_of r.pg_id with
  | some w => w * r.coverage_fraction
  | none => 0

/-- `weighted_sum` (lines 67-69): per-cell
`Σ (wse_weighted_average × coverage_fraction)`. -/
def weighted_sum (wse_of : Nat → Option ℚ) (tbl : List CovRow) (c : Nat) : ℚ :=
  ((cellRows tbl c).map (rowTerm wse_of)).sum

/-- `coverage_sum` (lines 70-72): per-cell `Σ coverage_fraction`. -/
def coverage_sum (tbl : List CovRow) (c : Nat) : ℚ :=
  ((cellRows tbl c).map (fun r => r.coverage_fraction)).sum

/-- `wse_cell_weighted_average = weighted_sum / coverage_sum` (lines 77-79);
every row of a cell receives this same value in the `mutate` and the
following `group_by('cell').first()` (lines 81-83) keeps it once per cell. -/
def wse_cell_weighted_average (wse_of : Nat → Option ℚ) (tbl : List CovRow) (c : Nat) : ℚ :=
  weighted_sum wse_of tbl c / coverage_sum tbl c

/-- SQL `SUM` semantics of the per-cell numerator with `NULL` tracked: DuckDB
skips `NULL` terms but returns `NULL` when every term of the group is `NULL`,
i.e. when no row of the cell resolves in the WSE table.  When at least one
row resolves, the sum equals `weighted_sum` (unmatched rows contribute
nothing). -/
def weighted_sum? (wse_of : Nat → Option ℚ) (tbl : List CovRow) (c : Nat) : Option ℚ :=
  if ∀ r ∈ cellRows tbl c, wse_of r.pg_id = none then none
  else some (weighted_sum wse_of tbl c)

/-- `wse_cell_weighted_average` with `NULL` tracked: a `NULL` numerator
propagates through the division (SQL `NULL / x = NULL`). -/
def wse_cell_weighted_average? (wse_of : Nat → Option ℚ) (tbl : List CovRow)
    (c : Nat) : Option ℚ :=
  (weighted_sum? wse_of tbl c).map (fun s => s / coverage_sum tbl c)

/-- Specification-side cell aggregation, written from the spec's words
(§4.4): `numerator = Σ(element_wse × coverage_fraction)`, `denominator =
Σ(coverage_fraction)`, `cell_wse = numerator / denominator`, for a total
per-element WSE assignment. -/
def cellAggregatorSpec (wse : Nat → ℚ) (rows : List CovRow) : ℚ :=
  (rows.map (fun r => wse r.pg_id * r.coverage_fraction)).sum /
    (rows.map (fun r => r.coverage_fraction)).sum

/-- The elevation attached to a cell: `z_w_cell` (lines 85-89) aggregates
every non-`cell` column with `first()`, so the cell's elevation is the first
coverage row's elevation. -/
def elevation_first (tbl : List CovRow) (c : Nat) : Option ℚ :=
  match (cellRows tbl c).head? with
  | some r => r.elevation
  | none => none

/-- The per-cell entry of `z_w_merged` after the elevation join and the
`~elevation.isnan()` filter (lines 91-93): `none` when the cell has no
coverage rows or its first-row elevation is `NaN`, otherwise the aggregated
cell WSE. -/
def agg_cell (wse_of : Nat → Option ℚ) (tbl : List CovRow) (c : Nat) : Option ℚ :=
  match elevation_first tbl c with
  | some _ => some (wse_cell_weighted_average wse_of tbl c)
  | none => none

/-- One row of the `depth` table (lines 95-99): depth
`wse_cell_weighted_average - elevation`, present only for cells that survive
the elevation filter (row exists with defined elevation) and whose depth is
defined and `>= 0`.  A cell whose aggregated WSE is SQL `NULL` (no covering
element resolves) has `NULL` depth, and the `depth >= 0` filter drops it
(`NULL >= 0` is not true). -/
def depth_cell (wse_of : Nat → Option ℚ) (tbl : List CovRow) (c : Nat) : Option ℚ :=
  match elevation_first tbl c with
  | none => none
  | some e =>
    match wse_cell_weighted_average? wse_of tbl c with
    | none => none
    | some w => if 0 ≤ w - e then some (w - e) else none

/-- `z_w_merged_with_missing` (lines 110-127): the complete cell range
`1..total` (built with default value `0`) left-joined with the aggregated
table and `coalesce`d, ordered by cell. -/
def with_missing (wse_of : Nat → Option ℚ) (tbl : List CovRow) (total : Nat) :
    List (Nat × ℚ) :=
  (List.range total).map (fun i => (i + 1, (agg_cell wse_of tbl (i + 1)).getD 0))

/-! ### Rasterization (`interpolate` lines 130-139) and `make_depth_raster`
(lines 158-237). -/

/-- numpy floor division `(i - 1) // width` (line 135), applied by the source
to the 0-based DataFrame index `i` — not to the 1-based `cell` column.  After
`order_by('cell')` over the complete range, index `i` holds cell `i + 1`. -/
def rowIdxRaw (w : Nat) (i : Nat) : Int := Int.fdiv (Int.ofNat i - 1) (Int.ofNat w)

/-- numpy modulo `(i - 1) % width` (line 136): sign of the (positive)
divisor, hence `Int.fmod`. -/
def colIdxRaw (w : Nat) (i : Nat) : Int := Int.fmod (Int.ofNat i - 1) (Int.ofNat w)

/-- numpy fancy-indexing wraparound: a negative index `-k` addresses position
`n - k`. -/
def wrapIdx (n : Nat) (r : Int) : Int := if r < 0 then r + Int.ofNat n else r

/-- The raster pixel `(row, col)` written for DataFrame index `i`
(`raster_array[row_indices, col_indices] = values`, line 139). -/
def code_pixel (w h : Nat) (i : Nat) : Nat × Nat :=
  ((wrapIdx h (rowIdxRaw w i)).toNat, (wrapIdx w (colIdxRaw w i)).toNat)

/-- The assembled raster (lines 138-139): start from `np.zeros((height,
width))` and write `values[i]` at `code_pixel i` for each index in order. -/
def code_raster (w h : Nat) (vals : List ℚ) (rc : Nat × Nat) : ℚ :=
  (List.range vals.length).foldl
    (fun acc i => if code_pixel w h i = rc then vals.getD i 0 else acc) 0

/-- Specification-side raster, written from the spec's words: with values
ordered by cell and `cell = (row × width) + col + 1`, the pixel `(row, col)`
shows the value of cell `row * width + col + 1`, i.e. `vals[row * w + col]`. -/
def spec_raster (w : Nat) (vals : List ℚ) (rc : Nat × Nat) : ℚ :=
  vals.getD (rc.1 * w + rc.2) 0

/-- The spec's 1-based row-major cell encoding of a pixel. -/
def spec_cell_of (w : Nat) (rc : Nat × Nat) : Nat := rc.1 * w + rc.2 + 1

/-- The spec's decoding of a 1-based cell index into `(row, col)`. -/
def spec_rc_of (w : Nat) (cell : Nat) : Nat × Nat := ((cell - 1) / w, (cell - 1) % w)

/-- The NoData masking step of `make_depth_raster` (line 228): the
difference `wse - dem` is kept unless either input equals the NoData value. -/
def nodata_mask (wse dem : ℚ) (nodata : Option ℚ) : Option ℚ :=
  match nodata with
  | some nd => if wse = nd ∨ dem = nd then none else some (wse - dem)
  | none => some (wse - dem)

/-- One pixel of `make_depth_raster` (lines 222-231): after NoData masking,
`mask_negative` turns every pixel with `difference <= 0.0` into `NaN`
(`none`); already-`NaN` pixels stay `NaN` (IEEE `NaN <= 0` is false). -/
def depth_mask (wse dem : ℚ) (nodata : Option ℚ) (mask_negative : Bool) : Option ℚ :=
  match nodata_mask wse dem nodata with
  | none => none
  | some v => cond mask_negative (if v ≤ 0 then none else some v) (some v)

/-! ## Part 2: theorems -/

theorem Pt3.add_def (a b : Pt3) : a + b = ⟨a.x + b.x, a.y + b.y, a.z + b.z⟩ := rfl

theorem Pt3.sub_def (a b : Pt3) : a - b = ⟨a.x - b.x, a.y - b.y, a.z - b.z⟩ := rfl

theorem Pt3.smul_def (r : ℝ) (a : Pt3) : r • a = ⟨r * a.x, r * a.y, r * a.z⟩ := rfl

theorem Pt3.norm3_nonneg (a : Pt3) : 0 ≤ norm3 a := Real.sqrt_nonneg _

theorem Pt3.norm3_eq_zero_iff (a : Pt3) : norm3 a = 0 ↔ a = ⟨0, 0, 0⟩ := by
  constructor
  · intro h
    have hle : a.x ^ 2 + a.y ^ 2 + a.z ^ 2 ≤ 0 := Real.sqrt_eq_zero'.mp h
    have hx : a.x = 0 := by nlinarith [sq_nonneg a.x, sq_nonneg a.y, sq_nonneg a.z]
    have hy : a.y = 0 := by nlinarith [sq_nonneg a.x, sq_nonneg a.y, sq_nonneg a.z]
    have hz : a.z = 0 := by nlinarith [sq_nonneg a.x, sq_nonneg a.y, sq_nonneg a.z]
    cases a
    simp_all
  · intro h
    subst h
    simp [norm3]

/-- Norm of a vector whose `x` and `y` components vanish. -/
theorem Pt3.norm3_00z (t : ℝ) : norm3 ⟨0, 0, t⟩ = |t| := by
  unfold norm3
  rw [show (0 : ℝ) ^ 2 + 0 ^ 2 + t ^ 2 = t ^ 2 by ring, Real.sqrt_sq_eq_abs]

/-- Horizontal norm of a vector whose `y` component vanishes. -/
theorem Pt3.norm2xy_x0 (x z : ℝ) : norm2xy ⟨x, 0, z⟩ = |x| := by
  unfold norm2xy
  rw [show x ^ 2 + (0 : ℝ) ^ 2 = x ^ 2 by ring, Real.sqrt_sq_eq_abs]

theorem slope_term_nonneg (dz d : ℝ) : 0 ≤ slope_term dz d := by
  unfold slope_term
  split
  · exact abs_nonneg _
  · exact le_refl 0

theorem slope_term_zero_dz (d : ℝ) : slope_term 0 d = 0 := by
  unfold slope_term
  split <;> simp

/-- A neighbour at the same elevation as the vertex contributes nothing, and a
fully flat triangle has slope `0` at each vertex. -/
theorem calculate_slope_flat (v a b : Pt3) (ha : a.z = v.z) (hb : b.z = v.z) :
    calculate_slope v a b = 0 := by
  unfold calculate_slope
  rw [Pt3.sub_def, Pt3.sub_def]
  simp only [ha, hb, sub_self]
  rw [slope_term_zero_dz, slope_term_zero_dz]
  norm_num

/-- Algebraic key fact: for an arbitrary point `P`, the three cross products
of the vertex-to-`P` vectors sum to the triangle's edge-cross normal.  (Pure
ring identity on components.) -/
theorem cross_vec_sum (P A B C : Pt3) :
    Pt3.cross (P - B) (P - C) + Pt3.cross (P - C) (P - A) +
      Pt3.cross (P - A) (P - B) = Pt3.cross (B - A) (C - A) := by
  simp only [Pt3.sub_def, Pt3.add_def, Pt3.cross, Pt3.mk.injEq]
  refine ⟨by ring, by ring, by ring⟩

/-- The three sub-area cross products sum to the normal vector. -/
theorem cross_sum_eq_normal (A B C : Pt3) :
    Pt3.cross (vec_B A B C) (vec_C A B C) + Pt3.cross (vec_C A B C) (vec_A A B C) +
      Pt3.cross (vec_A A B C) (vec_B A B C) = normal A B C :=
  cross_vec_sum (centroid A B C) A B C

theorem normal_length_pos_iff (A B C : Pt3) :
    0 < normal_length A B C ↔ normal A B C ≠ ⟨0, 0, 0⟩ := by
  unfold normal_length
  constructor
  · intro h hzero
    rw [hzero] at h
    have : Pt3.norm3 ⟨0, 0, 0⟩ = 0 := (Pt3.norm3_eq_zero_iff _).mpr rfl
    linarith
  · intro h
    rcases lt_or_eq_of_le (Pt3.norm3_nonneg (normal A B C)) with hlt | heq
    · exact hlt
    · exact absurd ((Pt3.norm3_eq_zero_iff _).mp heq.symm) h

theorem area_A_nonneg (A B C : Pt3) (h : 0 < normal_length A B C) :
    0 ≤ area_A A B C := div_nonneg (Pt3.norm3_nonneg _) h.le

theorem area_B_nonneg (A B C : Pt3) (h : 0 < normal_length A B C) :
    0 ≤ area_B A B C := div_nonneg (Pt3.norm3_nonneg _) h.le

theorem area_C_nonneg (A B C : Pt3) (h : 0 < normal_length A B C) :
    0 ≤ area_C A B C := div_nonneg (Pt3.norm3_nonneg _) h.le

/-- For a triangle with a nonzero planar normal, the three sub-areas cannot
all vanish: their cross products would then sum to the zero vector, yet they
sum to the normal. -/
theorem total_area_pos (A B C : Pt3) (hnl : 0 < normal_length A B C) :
    0 < total_area A B C := by
  have hN : normal A B C ≠ ⟨0, 0, 0⟩ := (normal_length_pos_iff A B C).mp hnl
  have hA := area_A_nonneg A B C hnl
  have hB := area_B_nonneg A B C hnl
  have hC := area_C_nonneg A B C hnl
  by_contra hcon
  push_neg at hcon
  have hT : total_area A B C = 0 := le_antisymm hcon (by unfold total_area; linarith)
  have hA0 : area_A A B C = 0 := by unfold total_area at hT; linarith
  have hB0 : area_B A B C = 0 := by unfold total_area at hT; linarith
  have hC0 : area_C A B C = 0 := by unfold total_area at hT; linarith
  have hnl0 : normal_length A B C ≠ 0 := hnl.ne'
  have c1 : Pt3.cross (vec_B A B C) (vec_C A B C) = ⟨0, 0, 0⟩ := by
    unfold area_A at hA0
    rcases div_eq_zero_iff.mp hA0 with h | h
    · exact (Pt3.norm3_eq_zero_iff _).mp h
    · exact absurd h hnl0
  have c2 : Pt3.cross (vec_C A B C) (vec_A A B C) = ⟨0, 0, 0⟩ := by
    unfold area_B at hB0
    rcases div_eq_zero_iff.mp hB0 with h | h
    · exact (Pt3.norm3_eq_zero_iff _).mp h
    · exact absurd h hnl0
  have c3 : Pt3.cross (vec_A A B C) (vec_B A B C) = ⟨0, 0, 0⟩ := by
    unfold area_C at hC0
    rcases div_eq_zero_iff.mp hC0 with h | h
    · exact (Pt3.norm3_eq_zero_iff _).mp h
    · exact absurd h hnl0
  have hsum := cross_sum_eq_normal A B C
  rw [c1, c2, c3] at hsum
  apply hN
  rw [← hsum]
  simp [Pt3.add_def]

/-- Shared helper: for any triangle with nonzero normal (whichever slope
branch was taken), the returned weights are nonnegative and sum to exactly 1. -/
theorem bary_weights_core (A B C : Pt3) (hnl : 0 < normal_length A B C) :
    0 ≤ weight_A A B C ∧ 0 ≤ weight_B A B C ∧ 0 ≤ weight_C A B C ∧
      weight_A A B C + weight_B A B C + weight_C A B C = 1 := by
  have hT := total_area_pos A B C hnl
  refine ⟨div_nonneg (area_A_nonneg A B C hnl) hT.le,
    div_nonneg (area_B_nonneg A B C hnl) hT.le,
    div_nonneg (area_C_nonneg A B C hnl) hT.le, ?_⟩
  unfold weight_A weight_B weight_C
  rw [div_add_div_same, div_add_div_same]
  exact div_self hT.ne'

/-! ### Claims C1-C4 -/

/-- C1: for every non-degenerate (positive-area) triangle of three finite 3D
points, `calculate_barycentric_weights` returns three weights that are each
`≥ 0` and whose sum equals `1` within a tolerance of `1e-9` (in the exact
real embedding the sum is exactly `1`); moreover no unguarded float division
by zero occurs. -/
theorem C1_nondegenerate_weights (A B C : Pt3) (hpos : 0 < normal_length A B C) :
    0 ≤ (calculate_barycentric_weights A B C).1 ∧
    0 ≤ (calculate_barycentric_weights A B C).2.1 ∧
    0 ≤ (calculate_barycentric_weights A B C).2.2 ∧
    |(calculate_barycentric_weights A B C).1 + (calculate_barycentric_weights A B C).2.1 +
      (calculate_barycentric_weights A B C).2.2 - 1| ≤ 1e-9 ∧
    ¬bary_emits_nan A B C := by
  obtain ⟨h1, h2, h3, h4⟩ := bary_weights_core A B C hpos
  unfold calculate_barycentric_weights
  refine ⟨h1, h2, h3, ?_, ?_⟩
  · rw [h4]
    norm_num
  · intro hnan
    rcases hnan with h | h
    · exact absurd h hpos.ne'
    · exact absurd h (total_area_pos A B C hpos).ne'

theorem C1_witness_nl : normal_length ⟨0, 0, 0⟩ ⟨3, 0, 0⟩ ⟨0, 4, 0⟩ = 12 := by
  unfold normal_length normal
  rw [show (⟨3, 0, 0⟩ : Pt3) - ⟨0, 0, 0⟩ = ⟨3, 0, 0⟩ by simp [Pt3.sub_def],
    show (⟨0, 4, 0⟩ : Pt3) - ⟨0, 0, 0⟩ = ⟨0, 4, 0⟩ by simp [Pt3.sub_def],
    show Pt3.cross ⟨3, 0, 0⟩ ⟨0, 4, 0⟩ = ⟨0, 0, 12⟩ by norm_num [Pt3.cross],
    Pt3.norm3_00z]
  norm_num

/-- Witness for C1 at the concrete non-degenerate triangle
`(0,0,0), (3,0,0), (0,4,0)` (normal length `12 > 0`). -/
theorem C1_nondegenerate_weights_witness :
    0 ≤ (calculate_barycentric_weights ⟨0, 0, 0⟩ ⟨3, 0, 0⟩ ⟨0, 4, 0⟩).1 ∧
    0 ≤ (calculate_barycentric_weights ⟨0, 0, 0⟩ ⟨3, 0, 0⟩ ⟨0, 4, 0⟩).2.1 ∧
    0 ≤ (calculate_barycentric_weights ⟨0, 0, 0⟩ ⟨3, 0, 0⟩ ⟨0, 4, 0⟩).2.2 ∧
    |(calculate_barycentric_weights ⟨0, 0, 0⟩ ⟨3, 0, 0⟩ ⟨0, 4, 0⟩).1 +
      (calculate_barycentric_weights ⟨0, 0, 0⟩ ⟨3, 0, 0⟩ ⟨0, 4, 0⟩).2.1 +
      (calculate_barycentric_weights ⟨0, 0, 0⟩ ⟨3, 0, 0⟩ ⟨0, 4, 0⟩).2.2 - 1| ≤ 1e-9 ∧
    ¬bary_emits_nan ⟨0, 0, 0⟩ ⟨3, 0, 0⟩ ⟨0, 4, 0⟩ :=
  C1_nondegenerate_weights ⟨0, 0, 0⟩ ⟨3, 0, 0⟩ ⟨0, 4, 0⟩
    (by rw [C1_witness_nl]; norm_num)

theorem slope_term_eq_spec (v n : Pt3) :
    slope_term (n - v).z (Pt3.norm2xy (n - v)) = slope_spec v n := by
  unfold slope_term slope_spec
  rw [Pt3.sub_def]
  by_cases h : Pt3.norm2xy ⟨n.x - v.x, n.y - v.y, n.z - v.z⟩ = 0 <;> simp [h]

/-- C4: for all finite 3D points, `calculate_slope` returns the arithmetic
mean of the two per-neighbour slope magnitudes `|Δz / horizontal distance|`
(a neighbour at exactly zero horizontal distance contributing `0`); the
result is `≥ 0`, and the checked evaluation never hits a division by zero
(so the float code produces neither `NaN` nor `Inf`). -/
theorem C4_slope_mean_nonneg (v a b : Pt3) :
    0 ≤ calculate_slope v a b ∧
    calculate_slope v a b = (slope_spec v a + slope_spec v b) / 2 ∧
    calculate_slope_checked v a b = some (calculate_slope v a b) := by
  refine ⟨?_, ?_, ?_⟩
  · unfold calculate_slope
    have t1 := slope_term_nonneg (a - v).z (Pt3.norm2xy (a - v))
    have t2 := slope_term_nonneg (b - v).z (Pt3.norm2xy (b - v))
    linarith
  · unfold calculate_slope
    rw [slope_term_eq_spec, slope_term_eq_spec]
  · unfold calculate_slope_checked calculate_slope slope_term_checked slope_term fdiv?
    by_cases h1 : Pt3.norm2xy (a - v) = 0 <;>
      by_cases h2 : Pt3.norm2xy (b - v) = 0 <;>
      simp [h1, h2]

/-! Evaluation at the flat unit right triangle `(0,0,0), (1,0,0), (0,1,0)`
(used for claim C2). -/

theorem T0_total_slope : total_slope ⟨0, 0, 0⟩ ⟨1, 0, 0⟩ ⟨0, 1, 0⟩ = 0 := by
  unfold total_slope slope_A slope_B slope_C
  rw [calculate_slope_flat ⟨0, 0, 0⟩ ⟨1, 0, 0⟩ ⟨0, 1, 0⟩ rfl rfl,
    calculate_slope_flat ⟨1, 0, 0⟩ ⟨0, 0, 0⟩ ⟨0, 1, 0⟩ rfl rfl,
    calculate_slope_flat ⟨0, 1, 0⟩ ⟨0, 0, 0⟩ ⟨1, 0, 0⟩ rfl rfl]
  norm_num

theorem T0_w_A : w_A ⟨0, 0, 0⟩ ⟨1, 0, 0⟩ ⟨0, 1, 0⟩ = flatW := by
  unfold w_A
  rw [T0_total_slope]
  simp

theorem T0_w_B : w_B ⟨0, 0, 0⟩ ⟨1, 0, 0⟩ ⟨0, 1, 0⟩ = flatW := by
  unfold w_B
  rw [T0_total_slope]
  simp

theorem T0_w_C : w_C ⟨0, 0, 0⟩ ⟨1, 0, 0⟩ ⟨0, 1, 0⟩ = flatW := by
  unfold w_C
  rw [T0_total_slope]
  simp

theorem T0_centroid : centroid ⟨0, 0, 0⟩ ⟨1, 0, 0⟩ ⟨0, 1, 0⟩ = ⟨flatW, flatW, 0⟩ := by
  unfold centroid
  rw [T0_w_A, T0_w_B, T0_w_C]
  simp [Pt3.smul_def, Pt3.add_def]

theorem T0_vec_A : vec_A ⟨0, 0, 0⟩ ⟨1, 0, 0⟩ ⟨0, 1, 0⟩ = ⟨flatW, flatW, 0⟩ := by
  unfold vec_A
  rw [T0_centroid]
  simp [Pt3.sub_def]

theorem T0_vec_B : vec_B ⟨0, 0, 0⟩ ⟨1, 0, 0⟩ ⟨0, 1, 0⟩ = ⟨flatW - 1, flatW, 0⟩ := by
  unfold vec_B
  rw [T0_centroid]
  simp [Pt3.sub_def]

theorem T0_vec_C : vec_C ⟨0, 0, 0⟩ ⟨1, 0, 0⟩ ⟨0, 1, 0⟩ = ⟨flatW, flatW - 1, 0⟩ := by
  unfold vec_C
  rw [T0_centroid]
  simp [Pt3.sub_def]

theorem T0_normal_length : normal_length ⟨0, 0, 0⟩ ⟨1, 0, 0⟩ ⟨0, 1, 0⟩ = 1 := by
  unfold normal_length normal
  rw [show (⟨1, 0, 0⟩ : Pt3) - ⟨0, 0, 0⟩ = ⟨1, 0, 0⟩ by simp [Pt3.sub_def],
    show (⟨0, 1, 0⟩ : Pt3) - ⟨0, 0, 0⟩ = ⟨0, 1, 0⟩ by simp [Pt3.sub_def],
    show Pt3.cross ⟨1, 0, 0⟩ ⟨0, 1, 0⟩ = ⟨0, 0, 1⟩ by norm_num [Pt3.cross],
    Pt3.norm3_00z]
  norm_num

theorem flatW_nonneg : (0 : ℝ) ≤ flatW := by unfold flatW; norm_num

theorem flatW_le : (2 : ℝ) * flatW ≤ 1 := by unfold flatW; norm_num

theorem T0_area_A : area_A ⟨0, 0, 0⟩ ⟨1, 0, 0⟩ ⟨0, 1, 0⟩ = 1 - 2 * flatW := by
  unfold area_A
  rw [T0_vec_B, T0_vec_C, T0_normal_length,
    show Pt3.cross ⟨flatW - 1, flatW, 0⟩ ⟨flatW, flatW - 1, 0⟩ = ⟨0, 0, 1 - 2 * flatW⟩ by
      simp only [Pt3.cross, Pt3.mk.injEq]
      refine ⟨by ring, by ring, by ring⟩,
    Pt3.norm3_00z, abs_of_nonneg (by linarith [flatW_le])]
  norm_num

theorem T0_area_B : area_B ⟨0, 0, 0⟩ ⟨1, 0, 0⟩ ⟨0, 1, 0⟩ = flatW := by
  unfold area_B
  rw [T0_vec_C, T0_vec_A, T0_normal_length,
    show Pt3.cross ⟨flatW, flatW - 1, 0⟩ ⟨flatW, flatW, 0⟩ = ⟨0, 0, flatW⟩ by
      simp only [Pt3.cross, Pt3.mk.injEq]
      refine ⟨by ring, by ring, by ring⟩,
    Pt3.norm3_00z, abs_of_nonneg flatW_nonneg]
  norm_num

theorem T0_area_C : area_C ⟨0, 0, 0⟩ ⟨1, 0, 0⟩ ⟨0, 1, 0⟩ = flatW := by
  unfold area_C
  rw [T0_vec_A, T0_vec_B, T0_normal_length,
    show Pt3.cross ⟨flatW, flatW, 0⟩ ⟨flatW - 1, flatW, 0⟩ = ⟨0, 0, flatW⟩ by
      simp only [Pt3.cross, Pt3.mk.injEq]
      refine ⟨by ring, by ring, by ring⟩,
    Pt3.norm3_00z, abs_of_nonneg flatW_nonneg]
  norm_num

theorem T0_total_area : total_area ⟨0, 0, 0⟩ ⟨1, 0, 0⟩ ⟨0, 1, 0⟩ = 1 := by
  unfold total_area
  rw [T0_area_A, T0_area_B, T0_area_C]
  ring

theorem T0_weights :
    calculate_barycentric_weights ⟨0, 0, 0⟩ ⟨1, 0, 0⟩ ⟨0, 1, 0⟩ =
      (1 - 2 * flatW, flatW, flatW) := by
  unfold calculate_barycentric_weights weight_A weight_B weight_C
  rw [T0_total_area, T0_area_A, T0_area_B, T0_area_C]
  norm_num

/-- C2 counterexample: the flat unit right triangle has all `z` equal, yet the
returned weights are `(1 - 2·0.33333333333, 0.33333333333, 0.33333333333)
= (0.33333333334, 0.33333333333, 0.33333333333)`, not exactly
`(1/3, 1/3, 1/3)`: the flat branch uses the hard-coded constant
`0.33333333333` and the area normalization does not restore exact thirds. -/
theorem C2_flat_weights_not_exact_thirds :
    (⟨0, 0, 0⟩ : Pt3).z = (⟨1, 0, 0⟩ : Pt3).z ∧
    (⟨1, 0, 0⟩ : Pt3).z = (⟨0, 1, 0⟩ : Pt3).z ∧
    calculate_barycentric_weights ⟨0, 0, 0⟩ ⟨1, 0, 0⟩ ⟨0, 1, 0⟩ =
      (1 - 2 * flatW, flatW, flatW) ∧
    calculate_barycentric_weights ⟨0, 0, 0⟩ ⟨1, 0, 0⟩ ⟨0, 1, 0⟩ ≠
      ((1 : ℝ) / 3, (1 : ℝ) / 3, (1 : ℝ) / 3) := by
  refine ⟨rfl, rfl, T0_weights, ?_⟩
  rw [T0_weights]
  intro h
  rw [Prod.mk.injEq, Prod.mk.injEq] at h
  have := h.2.1
  unfold flatW at this
  norm_num at this

/-- C2 (amended): for every flat triangle (all three vertex `z` equal) with
positive area, `calculate_barycentric_weights` takes the uniform-slope branch
with the constant `0.33333333333` for each slope weight, and the returned
weights are nonnegative and sum to exactly `1`; they are not in general
exactly `(1/3, 1/3, 1/3)` — the flat unit right triangle returns
`(0.33333333334, 0.33333333333, 0.33333333333)` — although particular flat
triangles (for instance ones whose vertices sum to the zero vector, where the
slope-weighted centroid coincides with the true centroid) do return exact
thirds. -/
theorem C2_flat_uniform_branch (A B C : Pt3) (h1 : A.z = B.z) (h2 : B.z = C.z)
    (hpos : 0 < normal_length A B C) :
    total_slope A B C = 0 ∧
    w_A A B C = flatW ∧ w_B A B C = flatW ∧ w_C A B C = flatW ∧
    0 ≤ (calculate_barycentric_weights A B C).1 ∧
    0 ≤ (calculate_barycentric_weights A B C).2.1 ∧
    0 ≤ (calculate_barycentric_weights A B C).2.2 ∧
    (calculate_barycentric_weights A B C).1 + (calculate_barycentric_weights A B C).2.1 +
      (calculate_barycentric_weights A B C).2.2 = 1 := by
  have hts : total_slope A B C = 0 := by
    unfold total_slope slope_A slope_B slope_C
    rw [calculate_slope_flat A B C h1.symm (h1.trans h2).symm,
      calculate_slope_flat B A C h1 h2.symm,
      calculate_slope_flat C A B (h1.trans h2) h2]
    norm_num
  obtain ⟨g1, g2, g3, g4⟩ := bary_weights_core A B C hpos
  unfold calculate_barycentric_weights
  exact ⟨hts, by unfold w_A; rw [hts]; simp, by unfold w_B; rw [hts]; simp,
    by unfold w_C; rw [hts]; simp, g1, g2, g3, g4⟩

/-- Witness for the amended C2 at the flat unit right triangle. -/
theorem C2_flat_uniform_branch_witness :
    total_slope ⟨0, 0, 0⟩ ⟨1, 0, 0⟩ ⟨0, 1, 0⟩ = 0 ∧
    w_A ⟨0, 0, 0⟩ ⟨1, 0, 0⟩ ⟨0, 1, 0⟩ = flatW ∧
    w_B ⟨0, 0, 0⟩ ⟨1, 0, 0⟩ ⟨0, 1, 0⟩ = flatW ∧
    w_C ⟨0, 0, 0⟩ ⟨1, 0, 0⟩ ⟨0, 1, 0⟩ = flatW ∧
    0 ≤ (calculate_barycentric_weights ⟨0, 0, 0⟩ ⟨1, 0, 0⟩ ⟨0, 1, 0⟩).1 ∧
    0 ≤ (calculate_barycentric_weights ⟨0, 0, 0⟩ ⟨1, 0, 0⟩ ⟨0, 1, 0⟩).2.1 ∧
    0 ≤ (calculate_barycentric_weights ⟨0, 0, 0⟩ ⟨1, 0, 0⟩ ⟨0, 1, 0⟩).2.2 ∧
    (calculate_barycentric_weights ⟨0, 0, 0⟩ ⟨1, 0, 0⟩ ⟨0, 1, 0⟩).1 +
      (calculate_barycentric_weights ⟨0, 0, 0⟩ ⟨1, 0, 0⟩ ⟨0, 1, 0⟩).2.1 +
      (calculate_barycentric_weights ⟨0, 0, 0⟩ ⟨1, 0, 0⟩ ⟨0, 1, 0⟩).2.2 = 1 :=
  C2_flat_uniform_branch ⟨0, 0, 0⟩ ⟨1, 0, 0⟩ ⟨0, 1, 0⟩ rfl rfl
    (by rw [T0_normal_length]; norm_num)

/-! Evaluation at the collinear sloped triangle `(0,0,0), (1,0,1), (2,0,2)`
(used for claim C3). -/

theorem C3_slope_A : slope_A ⟨0, 0, 0⟩ ⟨1, 0, 1⟩ ⟨2, 0, 2⟩ = 1 := by
  unfold slope_A calculate_slope
  rw [show (⟨1, 0, 1⟩ : Pt3) - ⟨0, 0, 0⟩ = ⟨1, 0, 1⟩ by simp [Pt3.sub_def],
    show (⟨2, 0, 2⟩ : Pt3) - ⟨0, 0, 0⟩ = ⟨2, 0, 2⟩ by simp [Pt3.sub_def],
    Pt3.norm2xy_x0, Pt3.norm2xy_x0]
  norm_num [slope_term]

theorem C3_slope_B : slope_B ⟨0, 0, 0⟩ ⟨1, 0, 1⟩ ⟨2, 0, 2⟩ = 1 := by
  unfold slope_B calculate_slope
  rw [show (⟨0, 0, 0⟩ : Pt3) - ⟨1, 0, 1⟩ = ⟨-1, 0, -1⟩ by simp [Pt3.sub_def],
    show (⟨2, 0, 2⟩ : Pt3) - ⟨1, 0, 1⟩ = ⟨1, 0, 1⟩ by norm_num [Pt3.sub_def],
    Pt3.norm2xy_x0, Pt3.norm2xy_x0]
  norm_num [slope_term]

theorem C3_slope_C : slope_C ⟨0, 0, 0⟩ ⟨1, 0, 1⟩ ⟨2, 0, 2⟩ = 1 := by
  unfold slope_C calculate_slope
  rw [show (⟨0, 0, 0⟩ : Pt3) - ⟨2, 0, 2⟩ = ⟨-2, 0, -2⟩ by simp [Pt3.sub_def],
    show (⟨1, 0, 1⟩ : Pt3) - ⟨2, 0, 2⟩ = ⟨-1, 0, -1⟩ by norm_num [Pt3.sub_def],
    Pt3.norm2xy_x0, Pt3.norm2xy_x0]
  norm_num [slope_term]

theorem C3_total_slope : total_slope ⟨0, 0, 0⟩ ⟨1, 0, 1⟩ ⟨2, 0, 2⟩ = 3 := by
  unfold total_slope
  rw [C3_slope_A, C3_slope_B, C3_slope_C]
  norm_num

theorem C3_normal_length : normal_length ⟨0, 0, 0⟩ ⟨1, 0, 1⟩ ⟨2, 0, 2⟩ = 0 := by
  unfold normal_length normal
  rw [show (⟨1, 0, 1⟩ : Pt3) - ⟨0, 0, 0⟩ = ⟨1, 0, 1⟩ by simp [Pt3.sub_def],
    show (⟨2, 0, 2⟩ : Pt3) - ⟨0, 0, 0⟩ = ⟨2, 0, 2⟩ by simp [Pt3.sub_def],
    show Pt3.cross ⟨1, 0, 1⟩ ⟨2, 0, 2⟩ = ⟨0, 0, 0⟩ by norm_num [Pt3.cross],
    Pt3.norm3_00z]
  norm_num

/-- C3: at the collinear (zero-area) triangle `(0,0,0), (1,0,1), (2,0,2)` the
total slope is `3 ≠ 0`, so the flat-region branch is not taken, yet
`normal_length = 0`: the source divides the sub-area norms by zero, emitting
`NaN` under float semantics (`bary_emits_nan`); in the exact real embedding
(where `x / 0 = 0`) the returned "weights" are `(0, 0, 0)` — no defined
uniform-weight fallback exists in the code. -/
theorem C3_collinear_emits_nan :
    total_slope ⟨0, 0, 0⟩ ⟨1, 0, 1⟩ ⟨2, 0, 2⟩ = 3 ∧
    normal_length ⟨0, 0, 0⟩ ⟨1, 0, 1⟩ ⟨2, 0, 2⟩ = 0 ∧
    bary_emits_nan ⟨0, 0, 0⟩ ⟨1, 0, 1⟩ ⟨2, 0, 2⟩ ∧
    calculate_barycentric_weights ⟨0, 0, 0⟩ ⟨1, 0, 1⟩ ⟨2, 0, 2⟩ = (0, 0, 0) := by
  have hA : area_A ⟨0, 0, 0⟩ ⟨1, 0, 1⟩ ⟨2, 0, 2⟩ = 0 := by
    unfold area_A
    rw [C3_normal_length, div_zero]
  have hB : area_B ⟨0, 0, 0⟩ ⟨1, 0, 1⟩ ⟨2, 0, 2⟩ = 0 := by
    unfold area_B
    rw [C3_normal_length, div_zero]
  have hC : area_C ⟨0, 0, 0⟩ ⟨1, 0, 1⟩ ⟨2, 0, 2⟩ = 0 := by
    unfold area_C
    rw [C3_normal_length, div_zero]
  have hT : total_area ⟨0, 0, 0⟩ ⟨1, 0, 1⟩ ⟨2, 0, 2⟩ = 0 := by
    unfold total_area
    rw [hA, hB, hC]
    norm_num
  refine ⟨C3_total_slope, C3_normal_length, Or.inl C3_normal_length, ?_⟩
  unfold calculate_barycentric_weights weight_A weight_B weight_C
  rw [hT, div_zero, div_zero, div_zero]

/-! ### Claim C8 -/

/-- C8: for every element whose three node references do not all resolve, the
batch records the element's identity among the problem elements, leaves its
weights `None`, and still produces one output slot per element in order — an
unresolvable reference never aborts the batch. -/
theorem C8_unresolvable_element_skipped (lookup : Nat → Option NodeRec)
    (elems : List MeshElem) :
    (compute_3d_barycentric lookup elems).length = elems.length ∧
    (∀ i : Nat, (compute_3d_barycentric lookup elems)[i]? =
      elems[i]?.map (element_weights lookup)) ∧
    (∀ e ∈ elems, (element_weights lookup e = none ↔
      (lookup e.node_id_1 = none ∨ lookup e.node_id_2 = none ∨
        lookup e.node_id_3 = none))) ∧
    (∀ e ∈ elems, element_weights lookup e = none →
      e.pg_id ∈ problem_elements lookup elems) := by
  refine ⟨List.length_map _ _, fun i => List.getElem?_map _ _ _, fun e _ => ?_, ?_⟩
  · cases h1 : lookup e.node_id_1 <;> cases h2 : lookup e.node_id_2 <;>
      cases h3 : lookup e.node_id_3 <;> simp [element_weights, h1, h2, h3]
  · intro e he hnone
    unfold problem_elements
    exact List.mem_map.mpr ⟨e, List.mem_filter.mpr ⟨he, by simp [hnone]⟩, rfl⟩

/-- Witness for C8: a one-element batch whose element `7` references the
unresolvable nodes `2` and `3`; its identity is recorded. -/
theorem C8_unresolvable_element_skipped_witness :
    (7 : Nat) ∈ problem_elements
      (fun n => if n = 1 then some ⟨0, 0, 0⟩ else none) [⟨7, 1, 2, 3⟩] :=
  (C8_unresolvable_element_skipped
      (fun n => if n = 1 then some ⟨0, 0, 0⟩ else none) [⟨7, 1, 2, 3⟩]).2.2.2
    ⟨7, 1, 2, 3⟩ (List.mem_cons_self _ _) rfl

/-! ### Claim C5 -/

theorem sum_rowTerm_eq (wse_of : Nat → Option ℚ) (wse : Nat → ℚ) :
    ∀ l : List CovRow, (∀ r ∈ l, wse_of r.pg_id = some (wse r.pg_id)) →
      (l.map (rowTerm wse_of)).sum =
        (l.map (fun r => wse r.pg_id * r.coverage_fraction)).sum := by
  intro l
  induction l with
  | nil => intro _; rfl
  | cons a t ih =>
    intro h
    simp only [List.map_cons, List.sum_cons]
    rw [ih (fun r hr => h r (List.mem_cons_of_mem a hr))]
    have ha := h a (List.mem_cons_self a t)
    unfold rowTerm
    rw [ha]

/-- C5: per cell, the aggregated WSE equals
`Σ(element_wse × coverage_fraction) / Σ(coverage_fraction)` over the cell's
coverage rows (when every row's element resolves in the WSE table); in
particular a cell covered by a single element with fraction `1` gets exactly
that element's WSE, and a cell covered by two elements with equal nonzero
fractions gets the arithmetic mean of their WSE values. -/
theorem C5_cell_weighted_average (wse_of : Nat → Option ℚ) (wse : Nat → ℚ)
    (tbl : List CovRow) (c : Nat) :
    ((∀ r ∈ cellRows tbl c, wse_of r.pg_id = some (wse r.pg_id)) →
      wse_cell_weighted_average wse_of tbl c = cellAggregatorSpec wse (cellRows tbl c)) ∧
    (∀ r w, cellRows tbl c = [r] → wse_of r.pg_id = some w →
      r.coverage_fraction = 1 → wse_cell_weighted_average wse_of tbl c = w) ∧
    (∀ r1 r2 w1 w2, cellRows tbl c = [r1, r2] → wse_of r1.pg_id = some w1 →
      wse_of r2.pg_id = some w2 → r1.coverage_fraction = r2.coverage_fraction →
      r1.coverage_fraction ≠ 0 →
      wse_cell_weighted_average wse_of tbl c = (w1 + w2) / 2) := by
  refine ⟨?_, ?_, ?_⟩
  · intro h
    unfold wse_cell_weighted_average weighted_sum coverage_sum cellAggregatorSpec
    rw [sum_rowTerm_eq wse_of wse _ h]
  · intro r w hrows hw hcf
    unfold wse_cell_weighted_average weighted_sum coverage_sum
    rw [hrows]
    simp [rowTerm, hw, hcf]
  · intro r1 r2 w1 w2 hrows hw1 hw2 heq hne
    unfold wse_cell_weighted_average weighted_sum coverage_sum
    rw [hrows]
    simp only [List.map_cons, List.map_nil, List.sum_cons, List.sum_nil, add_zero]
    unfold rowTerm
    rw [hw1, hw2, ← heq]
    have h2 : r1.coverage_fraction + r1.coverage_fraction ≠ 0 := by
      intro hc
      apply hne
      linarith
    rw [div_eq_div_iff h2 (by norm_num : (2 : ℚ) ≠ 0)]
    ring

/-- Witness for C5: one cell fully covered (`coverage_fraction = 1`) by
element `1` with WSE `5` yields exactly `5`. -/
theorem C5_cell_weighted_average_witness :
    wse_cell_weighted_average (fun _ => some (5 : ℚ)) [⟨1, 1, 1, some 0⟩] 1 = 5 :=
  (C5_cell_weighted_average (fun _ => some (5 : ℚ)) (fun _ => (5 : ℚ))
      [⟨1, 1, 1, some 0⟩] 1).2.1
    ⟨1, 1, 1, some 0⟩ 5 rfl rfl rfl

/-! ### Claim C10 -/

/-- C10: the elevation attached to a cell before the depth subtraction is the
first coverage row's elevation, not a combination: when all the cell's rows
carry the same elevation `e` the emitted elevation is `e`, and in general the
emitted elevation is one of the rows' elevation values. -/
theorem C10_elevation_from_first_row (tbl : List CovRow) (c : Nat) :
    (∀ e : ℚ, cellRows tbl c ≠ [] →
      (∀ r ∈ cellRows tbl c, r.elevation = some e) →
      elevation_first tbl c = some e) ∧
    (cellRows tbl c ≠ [] →
      ∃ r, r ∈ cellRows tbl c ∧ elevation_first tbl c = r.elevation) := by
  rcases h : cellRows tbl c with _ | ⟨a, t⟩
  · exact ⟨fun e hne _ => absurd rfl hne, fun hne => absurd rfl hne⟩
  · constructor
    · intro e _ hall
      unfold elevation_first
      rw [h]
      exact hall a (List.mem_cons_self a t)
    · intro _
      refine ⟨a, List.mem_cons_self a t, ?_⟩
      unfold elevation_first
      simp only [h, List.head?_cons]

/-- Witness for C10: a cell with two coverage rows, both carrying elevation
`2`, emits elevation `2` (taken from the first row). -/
theorem C10_elevation_from_first_row_witness :
    elevation_first [⟨1, 1, 1, some 2⟩, ⟨2, 1, 1, some 2⟩] 1 = some 2 :=
  (C10_elevation_from_first_row [⟨1, 1, 1, some 2⟩, ⟨2, 1, 1, some 2⟩] 1).1 2
    (List.cons_ne_nil _ _)
    (by
      intro r hr
      have hcr : cellRows [⟨1, 1, 1, some 2⟩, ⟨2, 1, 1, some 2⟩] 1 =
          [⟨1, 1, 1, some 2⟩, ⟨2, 1, 1, some 2⟩] := rfl
      rw [hcr] at hr
      rcases List.mem_cons.mp hr with h1 | h1
      · rw [h1]
      · rcases List.mem_cons.mp h1 with h2 | h2
        · rw [h2]
        · exact absurd h2 (List.not_mem_nil r))

/-! ### Claim C9 -/

/-- C9 counterexample: a cell fully covered by element `1` (aggregated WSE
`5`) whose sampled elevation is `NaN` is dropped by the elevation filter and
backfilled with the default `0` — it does not keep its aggregated WSE even
though it is present in the aggregation. -/
theorem C9_covered_nan_elevation_gets_default :
    wse_cell_weighted_average (fun _ => some (5 : ℚ)) [⟨1, 1, 1, none⟩] 1 = 5 ∧
    with_missing (fun _ => some (5 : ℚ)) [⟨1, 1, 1, none⟩] 1 = [(1, 0)] := by
  constructor
  · have hcr : cellRows [⟨1, 1, 1, (none : Option ℚ)⟩] 1 = [⟨1, 1, 1, none⟩] := rfl
    unfold wse_cell_weighted_average weighted_sum coverage_sum
    rw [hcr]
    norm_num [rowTerm]
  · rfl

/-- C9 (amended): every raster cell `1..total` receives exactly one value in
the backfilled table: cells present in the elevation-filtered aggregation
keep their aggregated WSE, cells absent from it — in particular every cell
covered by no element — are backfilled with the caller-supplied default `0`. -/
theorem C9_backfill_missing_cells (wse_of : Nat → Option ℚ) (tbl : List CovRow)
    (total c : Nat) (h1 : 1 ≤ c) (h2 : c ≤ total) :
    (with_missing wse_of tbl total).length = total ∧
    (∀ v, agg_cell wse_of tbl c = some v → (c, v) ∈ with_missing wse_of tbl total) ∧
    (agg_cell wse_of tbl c = none → (c, 0) ∈ with_missing wse_of tbl total) ∧
    (cellRows tbl c = [] → agg_cell wse_of tbl c = none) := by
  have hmem : (c, (agg_cell wse_of tbl c).getD 0) ∈ with_missing wse_of tbl total := by
    unfold with_missing
    apply List.mem_map.mpr
    refine ⟨c - 1, List.mem_range.mpr (by omega), ?_⟩
    rw [show c - 1 + 1 = c by omega]
  refine ⟨by unfold with_missing; rw [List.length_map, List.length_range], ?_, ?_, ?_⟩
  · intro v hv
    simpa [hv] using hmem
  · intro hv
    simpa [hv] using hmem
  · intro hempty
    unfold agg_cell elevation_first
    rw [hempty]
    rfl

/-- Witness for the amended C9: a 2-cell grid where only cell `1` is covered;
cell `2` is backfilled with `0`. -/
theorem C9_backfill_missing_cells_witness :
    ((2 : Nat), (0 : ℚ)) ∈ with_missing (fun _ => some (5 : ℚ)) [⟨1, 1, 1, some 3⟩] 2 :=
  (C9_backfill_missing_cells (fun _ => some (5 : ℚ)) [⟨1, 1, 1, some 3⟩] 2 2
      (by norm_num) (by norm_num)).2.2.1 (by decide)

/-! ### Claim C7 -/

/-- Normal form of `depth_mask` with no NoData value and `mask_negative`. -/
theorem depth_mask_none_eq (wse dem : ℚ) :
    depth_mask wse dem none true =
      (if wse - dem ≤ 0 then none else some (wse - dem)) := rfl

/-- Normal form of `depth_mask` with a NoData value and `mask_negative`. -/
theorem depth_mask_some_eq (wse dem nd : ℚ) :
    depth_mask wse dem (some nd) true =
      (if wse = nd ∨ dem = nd then none
        else if wse - dem ≤ 0 then none else some (wse - dem)) := by
  have h1 : nodata_mask wse dem (some nd) =
      if wse = nd ∨ dem = nd then none else some (wse - dem) := rfl
  unfold depth_mask
  rw [h1]
  by_cases hit : wse = nd ∨ dem = nd
  · rw [if_pos hit, if_pos hit]
  · rw [if_neg hit, if_neg hit]
    rfl

/-- C7 counterexample: a pixel with depth exactly `0` (`wse = dem = 3`, no
NoData value involved) is replaced by the `NaN` sentinel by
`make_depth_raster`'s `difference <= 0.0` mask, although the claim promises
masking of negative and NoData depths only. -/
theorem C7_zero_depth_masked :
    depth_mask 3 3 none true = none ∧ ¬((3 : ℚ) - 3 < 0) := by
  constructor
  · rw [depth_mask_none_eq, if_pos (by norm_num)]
  · norm_num

/-- C7 (amended): the `depth` table keeps exactly the cells with defined
(non-`NaN`) elevation, defined (non-`NULL`) aggregated WSE — the aggregated
WSE is `NULL` precisely when no covering element of the cell resolves in the
WSE table, and such cells are dropped by the `depth >= 0` filter through
`NULL` propagation — and `depth ≥ 0`; in the depth-raster variant with
`mask_negative`, NoData pixels and all non-positive depths (`<= 0.0`,
including exactly zero) are replaced by the `NaN` sentinel, every other pixel
keeps its depth — a total per-pixel map, so the raster grid shape is
preserved rather than rows being dropped. -/
theorem C7_depth_filter_and_mask (wse_of : Nat → Option ℚ) (tbl : List CovRow)
    (c : Nat) (d : ℚ) (wse dem : ℚ) (nodata : Option ℚ) :
    (wse_cell_weighted_average? wse_of tbl c = none ↔
      ∀ r ∈ cellRows tbl c, wse_of r.pg_id = none) ∧
    (depth_cell wse_of tbl c = some d ↔
      ∃ e w, elevation_first tbl c = some e ∧
        wse_cell_weighted_average? wse_of tbl c = some w ∧
        d = w - e ∧ 0 ≤ d) ∧
    (depth_mask wse dem nodata true = none ↔
      (∃ nd, nodata = some nd ∧ (wse = nd ∨ dem = nd)) ∨ wse - dem ≤ 0) ∧
    (depth_mask wse dem nodata true = some d ↔
      d = wse - dem ∧ 0 < d ∧ ∀ nd, nodata = some nd → ¬(wse = nd ∨ dem = nd)) := by
  refine ⟨?_, ?_, ?_, ?_⟩
  · unfold wse_cell_weighted_average? weighted_sum?
    by_cases hall : ∀ r ∈ cellRows tbl c, wse_of r.pg_id = none
    · rw [if_pos hall]
      exact ⟨fun _ => hall, fun _ => rfl⟩
    · rw [if_neg hall]
      exact ⟨fun h => absurd h (by simp), fun h => absurd h hall⟩
  · constructor
    · intro h
      unfold depth_cell at h
      rcases he : elevation_first tbl c with _ | e0
      · simp only [he] at h
        exact absurd h (by simp)
      · simp only [he] at h
        rcases hw : wse_cell_weighted_average? wse_of tbl c with _ | w0
        · simp only [hw] at h
          exact absurd h (by simp)
        · simp only [hw] at h
          by_cases hd : 0 ≤ w0 - e0
          · rw [if_pos hd] at h
            have hde := Option.some.inj h
            exact ⟨e0, w0, rfl, rfl, hde.symm, hde ▸ hd⟩
          · rw [if_neg hd] at h
            exact absurd h (by simp)
    · rintro ⟨e0, w0, he, hw, hde, hd0⟩
      unfold depth_cell
      simp only [he, hw]
      rw [if_pos (hde ▸ hd0), ← hde]
  · rcases nodata with _ | nd
    · rw [depth_mask_none_eq]
      by_cases hle : wse - dem ≤ 0 <;> simp [hle]
    · rw [depth_mask_some_eq]
      by_cases hit : wse = nd ∨ dem = nd
      · rw [if_pos hit]
        exact ⟨fun _ => Or.inl ⟨nd, rfl, hit⟩, fun _ => rfl⟩
      · rw [if_neg hit]
        by_cases hle : wse - dem ≤ 0 <;> simp [hit, hle]
  · rcases nodata with _ | nd
    · rw [depth_mask_none_eq]
      by_cases hle : wse - dem ≤ 0
      · rw [if_pos hle]
        constructor
        · intro h
          exact absurd h (by simp)
        · rintro ⟨hd, hpos, -⟩
          exact absurd (hd ▸ hpos) (not_lt.mpr hle)
      · rw [if_neg hle]
        constructor
        · intro h
          exact ⟨(Option.some.inj h).symm, by
            rw [← Option.some.inj h]; exact not_le.mp hle, by simp⟩
        · rintro ⟨hd, -, -⟩
          rw [hd]
    · rw [depth_mask_some_eq]
      by_cases hit : wse = nd ∨ dem = nd
      · rw [if_pos hit]
        constructor
        · intro h
          exact absurd h (by simp)
        · rintro ⟨-, -, hnd⟩
          exact absurd hit (hnd nd rfl)
      · rw [if_neg hit]
        by_cases hle : wse - dem ≤ 0
        · rw [if_pos hle]
          constructor
          · intro h
            exact absurd h (by simp)
          · rintro ⟨hd, hpos, -⟩
            exact absurd (hd ▸ hpos) (not_lt.mpr hle)
        · rw [if_neg hle]
          constructor
          · intro h
            refine ⟨(Option.some.inj h).symm, by
              rw [← Option.some.inj h]; exact not_le.mp hle, ?_⟩
            intro nd' hnd'
            rw [← Option.some.inj hnd']
            exact hit
          · rintro ⟨hd, -, -⟩
            rw [hd]

/-! ### Claim C6 -/

/-- C6: the spec's 1-based row-major convention round-trips on the 2×2 grid,
but the code rasterizes by the 0-based DataFrame index: with cells `1..4`
holding `[10, 20, 30, 40]`, pixel `(0,0)` receives `20` (cell 2's value)
instead of `10`, and cell 1's value `10` lands at the last pixel `(1,1)`
through numpy negative-index wraparound (`row = (0 - 1) // 2 = -1`). -/
theorem C6_raster_index_shift :
    (∀ cell : Fin 4, spec_cell_of 2 (spec_rc_of 2 (cell.val + 1)) = cell.val + 1) ∧
    code_raster 2 2 [10, 20, 30, 40] (0, 0) = 20 ∧
    code_raster 2 2 [10, 20, 30, 40] (0, 1) = 30 ∧
    code_raster 2 2 [10, 20, 30, 40] (1, 0) = 40 ∧
    code_raster 2 2 [10, 20, 30, 40] (1, 1) = 10 ∧
    spec_raster 2 [10, 20, 30, 40] (0, 0) = 10 ∧
    spec_raster 2 [10, 20, 30, 40] (1, 1) = 40 := by
  refine ⟨by decide, by decide, by decide, by decide, by decide, by decide, by decide⟩

end ZonalFim
